import Mathlib

/-!
Verification of the vybeScope alert-evaluation / polling core.

The definitions below are a shallow embedding of the Python sources:
  - `api.py`            : fetch_whale_transaction_for_single_token
  - `core/whale_alerts.py` : whale_alert_job (per-subject evaluation and send path)
  - `core/jobs.py`      : whale_alert_job (signature-variant last-seen marker)
  - `core/wallet_tracker.py` : check_recent_transactions, wallet_tracking_job
  - `core/dashboard.py` : the flat-file preference store operations

Python floats parsed from the `valueUsd` strings are modelled as rationals;
a record whose `valueUsd` does not parse is a distinguished constructor, since
`float(...)` raises on it.  Machine-level concerns (actual file I/O, Telegram
transport) are outside the embedding; the store is a snapshot value threaded
explicitly.
-/

/-- Model of the `valueUsd` field of a transfer record as consumed by
`float(x.get("valueUsd", 0))`: the field can be missing (the `.get` default 0
is used), present but non-numeric (`float` raises), or a numeric value. -/
inductive UsdVal where
  | missing : UsdVal
  | invalid : UsdVal
  | val : ℚ → UsdVal
deriving DecidableEq

/-- Semantics of `float(tx.get("valueUsd", 0))` (and of
`float(tx.get("valueUsd", "0"))`): `none` means the call raises. -/
def floatOfUsd : UsdVal → Option ℚ
  | .missing => some 0
  | .invalid => none
  | .val v => some v

/-- The fields of a TransactionRecord that the alert core reads.
`signature` is `tx.get("signature")`, hence `Option`; `blockTime` is
`tx.get("blockTime", 0)` with the default already applied. -/
structure Tx where
  signature : Option String
  valueUsd : UsdVal
  blockTime : Int
deriving DecidableEq

/-- Python `max(transactions, key=lambda x: float(x.get("valueUsd", 0)))`
after the first element: keeps the current best and replaces it only on a
strictly larger key, so ties keep the earlier element; a key that fails to
parse raises (`Except.error`). -/
def pyMaxByUsd (best : Tx) (bv : ℚ) : List Tx → Except Unit Tx
  | [] => .ok best
  | t :: ts =>
    match floatOfUsd t.valueUsd with
    | none => .error ()
    | some v => if bv < v then pyMaxByUsd t v ts else pyMaxByUsd best bv ts

/-- Embeds the selection part of `api.fetch_whale_transaction_for_single_token`:
returns `None` on an empty transfer list, otherwise
`max(transactions, key=lambda x: float(x.get("valueUsd", 0)))`; a raise inside
the key function is `Except.error`. -/
def fetch_whale_transaction_for_single_token (txs : List Tx) : Except Unit (Option Tx) :=
  match txs with
  | [] => .ok none
  | t :: ts =>
    match floatOfUsd t.valueUsd with
    | none => .error ()
    | some v => (pyMaxByUsd t v ts).map some

/-- Per-token alert settings record stored by the dashboard
(`{"enabled": ..., "threshold": ...}`). -/
structure TokenSettings where
  enabled : Bool
  threshold : ℚ
deriving DecidableEq

/-- Embeds the evaluation core of `whale_alerts.whale_alert_job` for one
subject after fetching: a fetch-time exception is caught by the per-subject
handler (`continue`), a `None` result is skipped, the selected transaction's
`valueUsd` is re-parsed (`continue` both on a parse failure and when below
the threshold), otherwise the transaction is the notifiable selection. -/
def evaluateSubject (threshold : ℚ) (txs : List Tx) : Option Tx :=
  match fetch_whale_transaction_for_single_token txs with
  | .error _ => none
  | .ok none => none
  | .ok (some tx) =>
    match floatOfUsd tx.valueUsd with
    | none => none
    | some v => if v < threshold then none else some tx

/-- Embeds one subject's full pass through `whale_alerts.whale_alert_job`,
with the store reads made explicit as snapshots: `s0` is the settings read at
loop entry (it supplies the threshold), `s1` the re-read just before the API
call, and `present2`/`s2` the re-validation reads just before sending.
The result is whether a notification is sent. -/
def whaleSubjectStep (s0 s1 : TokenSettings) (txs : List Tx)
    (present2 : Bool) (s2 : TokenSettings) : Bool :=
  if s0.enabled = false then false
  else if s1.enabled = false then false
  else
    match evaluateSubject s0.threshold txs with
    | none => false
    | some _ =>
      if present2 = false then false
      else if s2.enabled = false then false
      else true

/-- Observable side effects of one notifiable step of `jobs.whale_alert_job`,
in program order. -/
inductive Event where
  | notify : Event
  | persistMarker : Event
deriving DecidableEq

/-- Result of one subject's pass through `jobs.whale_alert_job`: whether a
notification was produced, the stored last-alerted-signature afterwards, and
the ordered side-effect trace. -/
structure JobsStepResult where
  notified : Bool
  marker : Option String
  trace : List Event
deriving DecidableEq

/-- Embeds `max(transactions, key=lambda tx: float(tx.get("valueUsd", 0)))`
preceded by the `if not transactions: continue` guard in `jobs.whale_alert_job`. -/
def jobsHighestTx (txs : List Tx) : Except Unit (Option Tx) :=
  match txs with
  | [] => .ok none
  | t :: ts =>
    match floatOfUsd t.valueUsd with
    | none => .error ()
    | some v => (pyMaxByUsd t v ts).map some

/-- Embeds the marker logic of `jobs.whale_alert_job` (the signature
variant): the highest-value transaction is notifiable iff its signature is
truthy and differs from `whale_alert.get("last_alerted_signature")`; on a
notification the code first awaits the send and only afterwards writes the
signature and saves the dashboard, which the trace records in program order. -/
def jobsWhaleStep (marker : Option String) (txs : List Tx) : Except Unit JobsStepResult :=
  match jobsHighestTx txs with
  | .error e => .error e
  | .ok none => .ok ⟨false, marker, []⟩
  | .ok (some tx) =>
    match tx.signature with
    | none => .ok ⟨false, marker, []⟩
    | some s =>
      if s ≠ "" ∧ marker ≠ some s then
        .ok ⟨true, some s, [Event.notify, Event.persistMarker]⟩
      else
        .ok ⟨false, marker, []⟩

/-- Embeds the scan loop of `wallet_tracker.check_recent_transactions`
(lines 362-369): starting from the stored `last_tx_time`, each record's
`blockTime` replaces the running latest only when strictly larger. -/
def checkRecentLatest (last : Int) (txs : List Tx) : Int :=
  txs.foldl (fun latest tx => if tx.blockTime > latest then tx.blockTime else latest) last

/-- Embeds the store update of `wallet_tracker.check_recent_transactions`
(lines 375-377): the per-wallet marker is overwritten only when the scan
found a strictly larger block time. -/
def checkRecentStored (last : Int) (txs : List Tx) : Int :=
  if checkRecentLatest last txs > last then checkRecentLatest last txs else last

/-- Embeds the per-pair containment structure shared by
`whale_alerts.whale_alert_job` and `wallet_tracker.wallet_tracking_job`:
each pair's body runs inside its own try/except, so a failure is recorded
and the loop continues with the remaining pairs. -/
def processPairsCaught {α ε : Type} (body : α → Except ε Unit) : List α → List (α × Option ε)
  | [] => []
  | p :: ps =>
    (p, match body p with | .ok _ => none | .error e => some e) :: processPairsCaught body ps

/-- Embeds one tick of `wallet_tracker.start_wallet_tracker_scheduler`'s loop
body: the whole job is additionally wrapped in try/except, so a tick never
propagates an exception to the loop. -/
def schedulerTick {α ε : Type} (body : α → Except ε Unit) (pairs : List α) :
    Except ε (List (α × Option ε)) :=
  .ok (processPairsCaught body pairs)

/-- One user's record in the dashboard file:
`{"wallets": [...], "whale_alert": {"tokens": {...}}}`.  The token dict is
modelled as an association list in insertion order, as CPython dicts are. -/
structure UserRec where
  wallets : List String
  tokens : List (String × TokenSettings)
deriving DecidableEq

/-- The fresh user record `{"wallets": [], "whale_alert": {"tokens": {}}}`. -/
def emptyUser : UserRec := ⟨[], []⟩

/-- The whole dashboard file: a dict from user id to record, modelled as an
association list in insertion order. -/
abbrev Dashboard : Type := List (String × UserRec)

/-- Python dict lookup `m.get(k)` on an association list. -/
def alookup {β : Type} (k : String) : List (String × β) → Option β
  | [] => none
  | (k', v) :: rest => if k' = k then some v else alookup k rest

/-- Python `data.setdefault(uid, empty-record)`: inserts a fresh record only
when the key is absent. -/
def dashSetdefault (d : Dashboard) (uid : String) : Dashboard :=
  match alookup uid d with
  | some _ => d
  | none => d ++ [(uid, emptyUser)]

/-- In-place mutation of the record stored under `uid` (the Python code
mutates the object returned by `setdefault` and then rewrites the file). -/
def dashUpdateUser (d : Dashboard) (uid : String) (f : UserRec → UserRec) : Dashboard :=
  d.map (fun p => if p.1 = uid then (p.1, f p.2) else p)

/-- Embeds `dashboard.get_token_alert_settings`: chained `.get` calls ending
in the default `{"enabled": False, "threshold": 50000}`. -/
def get_token_alert_settings (d : Dashboard) (uid tok : String) : TokenSettings :=
  match alookup uid d with
  | none => ⟨false, 50000⟩
  | some u =>
    match alookup tok u.tokens with
    | none => ⟨false, 50000⟩
    | some s => s

/-- Embeds `dashboard.get_tracked_whale_alert_tokens`: the key list of the
user's token dict, `[]` when the user record is absent. -/
def get_tracked_whale_alert_tokens (d : Dashboard) (uid : String) : List String :=
  match alookup uid d with
  | none => []
  | some u => u.tokens.map Prod.fst

/-- Embeds `dashboard.add_tracked_wallet`: `setdefault`, membership test on
the wallet list, append-and-save on success.  On the `False` path nothing is
saved, so the persisted store is the original one. -/
def add_tracked_wallet (d : Dashboard) (uid w : String) : Dashboard × Bool :=
  match alookup uid (dashSetdefault d uid) with
  | none => (d, false)
  | some u =>
    if w ∈ u.wallets then (d, false)
    else
      (dashUpdateUser (dashSetdefault d uid) uid
        (fun v => { v with wallets := v.wallets ++ [w] }), true)

/-- Embeds `dashboard.remove_tracked_wallet`: Python `list.remove` deletes
the first occurrence. -/
def remove_tracked_wallet (d : Dashboard) (uid w : String) : Dashboard × Bool :=
  match alookup uid (dashSetdefault d uid) with
  | none => (d, false)
  | some u =>
    if w ∈ u.wallets then
      (dashUpdateUser (dashSetdefault d uid) uid
        (fun v => { v with wallets := v.wallets.erase w }), true)
    else (d, false)

/-- Embeds `dashboard.add_tracked_whale_alert_token`: key-absence test on the
token dict, insert-and-save on success, report `False` without saving when
the token is already present. -/
def add_tracked_whale_alert_token (d : Dashboard) (uid tok : String)
    (enabled : Bool) (threshold : ℚ) : Dashboard × Bool :=
  match alookup uid (dashSetdefault d uid) with
  | none => (d, false)
  | some u =>
    match alookup tok u.tokens with
    | some _ => (d, false)
    | none =>
      (dashUpdateUser (dashSetdefault d uid) uid
        (fun v => { v with tokens := v.tokens ++ [(tok, ⟨enabled, threshold⟩)] }), true)

/-- Embeds `dashboard.remove_tracked_whale_alert_token`: `del` on the token
dict key when present. -/
def remove_tracked_whale_alert_token (d : Dashboard) (uid tok : String) : Dashboard × Bool :=
  match alookup uid (dashSetdefault d uid) with
  | none => (d, false)
  | some u =>
    match alookup tok u.tokens with
    | none => (d, false)
    | some _ =>
      (dashUpdateUser (dashSetdefault d uid) uid
        (fun v => { v with tokens := v.tokens.filter (fun p => p.1 ≠ tok) }), true)

/-- Embeds `dashboard.set_token_alert_enabled`: `setdefault` the user, create
the token entry with the default threshold when absent, otherwise overwrite
only its `enabled` field; always saved. -/
def set_token_alert_enabled (d : Dashboard) (uid tok : String) (e : Bool) : Dashboard :=
  dashUpdateUser (dashSetdefault d uid) uid (fun u =>
    match alookup tok u.tokens with
    | none => { u with tokens := u.tokens ++ [(tok, ⟨e, 50000⟩)] }
    | some _ =>
      { u with tokens := u.tokens.map (fun p => if p.1 = tok then (p.1, { p.2 with enabled := e }) else p) })

/-- Embeds `dashboard.set_token_alert_threshold`: `setdefault` the user,
create the token entry enabled-by-default when absent, otherwise overwrite
only its `threshold` field; always saved. -/
def set_token_alert_threshold (d : Dashboard) (uid tok : String) (v : ℚ) : Dashboard :=
  dashUpdateUser (dashSetdefault d uid) uid (fun u =>
    match alookup tok u.tokens with
    | none => { u with tokens := u.tokens ++ [(tok, ⟨true, v⟩)] }
    | some _ =>
      { u with tokens := u.tokens.map (fun p => if p.1 = tok then (p.1, { p.2 with threshold := v }) else p) })

/-- The preference-store mutations reachable from the claims: wallet
add/remove, whale-alert token add/remove, enabled toggle, threshold set. -/
inductive Op where
  | addWallet (uid w : String) : Op
  | removeWallet (uid w : String) : Op
  | addToken (uid tok : String) (enabled : Bool) (threshold : ℚ) : Op
  | removeToken (uid tok : String) : Op
  | setEnabled (uid tok : String) (e : Bool) : Op
  | setThreshold (uid tok : String) (v : ℚ) : Op

/-- Store effect of one operation (the reported Bool is dropped). -/
def applyOp (d : Dashboard) : Op → Dashboard
  | .addWallet uid w => (add_tracked_wallet d uid w).1
  | .removeWallet uid w => (remove_tracked_wallet d uid w).1
  | .addToken uid tok e th => (add_tracked_whale_alert_token d uid tok e th).1
  | .removeToken uid tok => (remove_tracked_whale_alert_token d uid tok).1
  | .setEnabled uid tok e => set_token_alert_enabled d uid tok e
  | .setThreshold uid tok v => set_token_alert_threshold d uid tok v

/-- Store effect of a sequence of operations, first to last. -/
def applyOps (ops : List Op) (d : Dashboard) : Dashboard :=
  ops.foldl applyOp d

/-- The dashboard of a missing or unreadable file: `{}`. -/
def dashEmpty : Dashboard := []

/-- Well-formedness of one user record: no duplicate tracked wallet and no
duplicate token key. -/
def userInv (u : UserRec) : Prop :=
  u.wallets.Nodup ∧ (u.tokens.map Prod.fst).Nodup

/-- Well-formedness of the store: no duplicate user key, every record
well-formed.  Under this invariant there is at most one subscription entry
per (user, subject) pair. -/
def dashInv (d : Dashboard) : Prop :=
  (d.map Prod.fst).Nodup ∧ ∀ p ∈ d, userInv p.2

/-- Signature string of the first example transaction (spec Scenario 1). -/
def sigA : String := "SIG_A"

/-- Signature string of the second example transaction (spec Scenario 1). -/
def sigB : String := "SIG_B"

/-- Scenario-1 transaction with valueUsd 80000. -/
def exA : Tx := ⟨some sigA, UsdVal.val 80000, 0⟩

/-- Scenario-1 transaction with valueUsd 120000. -/
def exB : Tx := ⟨some sigB, UsdVal.val 120000, 0⟩

/-- A transfer record whose valueUsd string does not parse. -/
def exBad : Tx := ⟨some sigA, UsdVal.invalid, 0⟩

/-- Specification of the Python max fold: on a batch whose keys all parse it
returns the first element attaining the maximal parsed valueUsd. -/
theorem pyMaxByUsd_spec (ts : List Tx) :
    ∀ (best : Tx) (bv : ℚ), floatOfUsd best.valueUsd = some bv →
    (∀ t ∈ ts, (floatOfUsd t.valueUsd).isSome) →
    ∃ r rv, pyMaxByUsd best bv ts = .ok r ∧ floatOfUsd r.valueUsd = some rv ∧
      bv ≤ rv ∧ (∀ u ∈ ts, ∀ w, floatOfUsd u.valueUsd = some w → w ≤ rv) ∧
      ∃ pre suf, best :: ts = pre ++ r :: suf ∧
        ∀ u ∈ pre, ∀ w, floatOfUsd u.valueUsd = some w → w < rv := by
  induction ts with
  | nil =>
    intro best bv hb _
    exact ⟨best, bv, rfl, hb, le_refl _, by simp, [], [], rfl, by simp⟩
  | cons t ts ih =>
    intro best bv hb hpar
    have ht : (floatOfUsd t.valueUsd).isSome := hpar t (by simp)
    obtain ⟨v, hv⟩ := Option.isSome_iff_exists.mp ht
    have hpar' : ∀ u ∈ ts, (floatOfUsd u.valueUsd).isSome := fun u hu => hpar u (by simp [hu])
    by_cases hlt : bv < v
    · obtain ⟨r, rv, hrun, hr, hle, hmax, pre, suf, hdec, hpre⟩ := ih t v hv hpar'
      refine ⟨r, rv, ?_, hr, le_of_lt (lt_of_lt_of_le hlt hle), ?_, best :: pre, suf, ?_, ?_⟩
      · simp [pyMaxByUsd, hv, hlt, hrun]
      · intro u hu w hw
        rcases List.mem_cons.mp hu with rfl | hu
        · rw [hv] at hw; exact (Option.some_inj.mp hw) ▸ hle
        · exact hmax u hu w hw
      · rw [hdec]; simp
      · intro u hu w hw
        rcases List.mem_cons.mp hu with rfl | h
        · rw [hb] at hw
          exact lt_of_lt_of_le ((Option.some_inj.mp hw) ▸ hlt) hle
        · exact hpre u h w hw
    · obtain ⟨r, rv, hrun, hr, hle, hmax, pre, suf, hdec, hpre⟩ := ih best bv hb hpar'
      have hvle : v ≤ bv := le_of_not_lt hlt
      refine ⟨r, rv, ?_, hr, hle, ?_, ?_⟩
      · simp [pyMaxByUsd, hv, hlt, hrun]
      · intro u hu w hw
        rcases List.mem_cons.mp hu with rfl | hu
        · rw [hv] at hw; exact le_trans ((Option.some_inj.mp hw) ▸ hvle) hle
        · exact hmax u hu w hw
      · cases pre with
        | nil =>
          simp only [List.nil_append] at hdec
          obtain ⟨hbest, hsuf⟩ := List.cons.injEq _ _ _ _ ▸ hdec
          exact ⟨[], t :: ts, by rw [hbest]; simp, by simp⟩
        | cons q pre' =>
          simp only [List.cons_append] at hdec
          obtain ⟨hq, hts⟩ := List.cons.injEq _ _ _ _ ▸ hdec
          have hbvlt : bv < rv := hpre q (by simp) bv (hq ▸ hb)
          refine ⟨best :: t :: pre', suf, by simp [hts], ?_⟩
          intro u hu w hw
          rcases List.mem_cons.mp hu with rfl | h
          · rw [hb] at hw; exact (Option.some_inj.mp hw) ▸ hbvlt
          · rcases List.mem_cons.mp h with rfl | h'
            · rw [hv] at hw
              exact lt_of_le_of_lt ((Option.some_inj.mp hw) ▸ hvle) hbvlt
            · exact hpre u (List.mem_cons_of_mem _ h') w hw

/-- Any transaction returned by the per-subject evaluation parses and meets
the threshold. -/
theorem evaluateSubject_some_ge (T : ℚ) (txs : List Tx) (tx : Tx)
    (h : evaluateSubject T txs = some tx) :
    ∃ v, floatOfUsd tx.valueUsd = some v ∧ T ≤ v := by
  unfold evaluateSubject at h
  split at h
  · exact absurd h (by simp)
  · exact absurd h (by simp)
  · rename_i tx' heq
    split at h
    · exact absurd h (by simp)
    · rename_i v hv
      split at h
      · exact absurd h (by simp)
      · rename_i hge
        obtain rfl := Option.some_inj.mp h
        exact ⟨v, hv, le_of_not_lt hge⟩

/-- C1 counterexample: the original claim quantifies over every fetched
batch, but on the batch [120000, unparsable] with threshold 50000 a
transaction at or above the threshold is present (exB, worth 120000) while
the evaluation selects nothing at all — the unparsable record makes the max
computation raise — so the claimed selection of the maximal-valueUsd
transaction fails on batches with an unparsable record. -/
theorem selection_fails_on_unparsable_batch :
    floatOfUsd exB.valueUsd = some 120000 ∧ (50000 : ℚ) ≤ 120000 ∧
    exB ∈ [exB, exBad] ∧
    evaluateSubject 50000 [exB, exBad] = none ∧
    evaluateSubject 50000 [exB, exBad] ≠ some exB :=
  ⟨rfl, by decide, by decide, rfl, by decide⟩

/-- C1 amended: restricted to batches whose valueUsd fields all parse (a
batch with an unparsable record aborts and selects nothing, see C2), the
per-subject evaluation never selects a transaction below the threshold T,
and whenever some transaction is at or above T it selects the one with
maximal valueUsd, ties broken in favor of the earliest in input order. -/
theorem whale_selection_correct (T : ℚ) (txs : List Tx)
    (hpar : ∀ t ∈ txs, (floatOfUsd t.valueUsd).isSome) :
    (∀ tx, evaluateSubject T txs = some tx →
       ∃ v, floatOfUsd tx.valueUsd = some v ∧ T ≤ v) ∧
    ((∃ t ∈ txs, ∃ v, floatOfUsd t.valueUsd = some v ∧ T ≤ v) →
      ∃ tx v, evaluateSubject T txs = some tx ∧ floatOfUsd tx.valueUsd = some v ∧
        (∀ u ∈ txs, ∀ w, floatOfUsd u.valueUsd = some w → w ≤ v) ∧
        ∃ pre suf, txs = pre ++ tx :: suf ∧
          ∀ u ∈ pre, ∀ w, floatOfUsd u.valueUsd = some w → w < v) := by
  constructor
  · intro tx h; exact evaluateSubject_some_ge T txs tx h
  · rintro ⟨t0, ht0, v0, hv0, hTv0⟩
    cases txs with
    | nil => cases ht0
    | cons a rest =>
      have ha : (floatOfUsd a.valueUsd).isSome := hpar a (by simp)
      obtain ⟨av, hav⟩ := Option.isSome_iff_exists.mp ha
      obtain ⟨r, rv, hrun, hr, hle, hmax, pre, suf, hdec, hpre⟩ :=
        pyMaxByUsd_spec rest a av hav (fun u hu => hpar u (by simp [hu]))
      have hmax' : ∀ u ∈ a :: rest, ∀ w, floatOfUsd u.valueUsd = some w → w ≤ rv := by
        intro u hu w hw
        rcases List.mem_cons.mp hu with rfl | hu
        · rw [hav] at hw; exact (Option.some_inj.mp hw) ▸ hle
        · exact hmax u hu w hw
      have hTrv : T ≤ rv := le_trans hTv0 (hmax' t0 ht0 v0 hv0)
      have hfetch : fetch_whale_transaction_for_single_token (a :: rest) = .ok (some r) := by
        simp only [fetch_whale_transaction_for_single_token, hav, hrun]
        rfl
      refine ⟨r, rv, ?_, hr, hmax', pre, suf, hdec, hpre⟩
      simp [evaluateSubject, hfetch, hr, not_lt.mpr hTrv]

/-- C1 witness: spec Scenario 1 batch (80000 then 120000, threshold 50000)
discharges the hypotheses of the selection theorem. -/
theorem whale_selection_correct_witness :
    (∀ t ∈ [exA, exB], (floatOfUsd t.valueUsd).isSome) ∧
    ((∀ tx, evaluateSubject 50000 [exA, exB] = some tx →
       ∃ v, floatOfUsd tx.valueUsd = some v ∧ (50000 : ℚ) ≤ v) ∧
     ((∃ t ∈ [exA, exB], ∃ v, floatOfUsd t.valueUsd = some v ∧ (50000 : ℚ) ≤ v) →
       ∃ tx v, evaluateSubject 50000 [exA, exB] = some tx ∧
         floatOfUsd tx.valueUsd = some v ∧
         (∀ u ∈ [exA, exB], ∀ w, floatOfUsd u.valueUsd = some w → w ≤ v) ∧
         ∃ pre suf, [exA, exB] = pre ++ tx :: suf ∧
           ∀ u ∈ pre, ∀ w, floatOfUsd u.valueUsd = some w → w < v)) :=
  ⟨by decide, whale_selection_correct 50000 [exA, exB] (by decide)⟩

/-- A batch containing an unparsable valueUsd makes the Python max fold
raise, whatever the running best is. -/
theorem pyMaxByUsd_error (ts : List Tx) :
    ∀ (best : Tx) (bv : ℚ), (∃ t ∈ ts, floatOfUsd t.valueUsd = none) →
      pyMaxByUsd best bv ts = .error () := by
  induction ts with
  | nil =>
    rintro best bv ⟨t, ht, _⟩
    cases ht
  | cons t ts ih =>
    rintro best bv ⟨u, hu, hun⟩
    rcases List.mem_cons.mp hu with rfl | hu
    · simp [pyMaxByUsd, hun]
    · cases hft : floatOfUsd t.valueUsd with
      | none => simp [pyMaxByUsd, hft]
      | some v =>
        simp only [pyMaxByUsd, hft]
        split
        · exact ih t v ⟨u, hu, hun⟩
        · exact ih best bv ⟨u, hu, hun⟩

/-- A batch containing an unparsable valueUsd makes the whole fetch raise. -/
theorem fetch_error_of_unparsable (txs : List Tx)
    (h : ∃ t ∈ txs, floatOfUsd t.valueUsd = none) :
    fetch_whale_transaction_for_single_token txs = .error () := by
  obtain ⟨u, hu, hun⟩ := h
  cases txs with
  | nil => cases hu
  | cons a rest =>
    cases hfa : floatOfUsd a.valueUsd with
    | none => simp [fetch_whale_transaction_for_single_token, hfa]
    | some v =>
      rcases List.mem_cons.mp hu with rfl | hu
      · rw [hfa] at hun; cases hun
      · simp only [fetch_whale_transaction_for_single_token, hfa,
          pyMaxByUsd_error rest a v ⟨u, hu, hun⟩]
        rfl

/-- C2 counterexample: on the batch [unparsable, 120000] with threshold
50000 the fetch raises and the evaluation selects nothing, instead of
skipping the bad record and yielding the valid maximum (which the singleton
valid batch shows would be the 120000 transaction). -/
theorem unparsable_record_not_skipped :
    fetch_whale_transaction_for_single_token [exBad, exB] = .error () ∧
    evaluateSubject 50000 [exBad, exB] = none ∧
    evaluateSubject 50000 [exB] = some exB ∧
    evaluateSubject 50000 [exBad, exB] ≠ some exB :=
  ⟨rfl, rfl, rfl, by decide⟩

/-- C2 amended: a batch containing a record with non-numeric valueUsd causes
the fetch's max computation to raise; the per-subject handler catches the
exception, so nothing is selected for that subject this tick (the maximum
among the remaining valid records is not yielded) and the error does not
propagate past the evaluation. -/
theorem unparsable_record_aborts (T : ℚ) (txs : List Tx)
    (h : ∃ t ∈ txs, floatOfUsd t.valueUsd = none) :
    fetch_whale_transaction_for_single_token txs = .error () ∧
    evaluateSubject T txs = none := by
  have hf := fetch_error_of_unparsable txs h
  exact ⟨hf, by simp [evaluateSubject, hf]⟩

/-- C2 amended witness: the counterexample batch discharges the hypothesis. -/
theorem unparsable_record_aborts_witness :
    (∃ t ∈ [exBad, exB], floatOfUsd t.valueUsd = none) ∧
    (fetch_whale_transaction_for_single_token [exBad, exB] = .error () ∧
     evaluateSubject 50000 [exBad, exB] = none) :=
  ⟨by decide, unparsable_record_aborts 50000 [exBad, exB] (by decide)⟩

/-- C3: In the signature variant, the selected highest-value transaction is
treated as new, and a notification produced, iff its signature differs from
the stored last-alerted signature; the marker then advances to that
signature, and re-running on the same batch with the updated marker produces
no second notification. -/
theorem signature_novelty_iff (marker : Option String) (txs : List Tx) (tx : Tx) (s : String)
    (hsel : jobsHighestTx txs = .ok (some tx))
    (hsig : tx.signature = some s) (hs : s ≠ "") :
    ∃ r, jobsWhaleStep marker txs = .ok r ∧
      (r.notified = true ↔ marker ≠ some s) ∧
      r.marker = (if r.notified then some s else marker) ∧
      ∃ r2, jobsWhaleStep (some s) txs = .ok r2 ∧ r2.notified = false ∧ r2.marker = some s := by
  have hstep : ∀ m : Option String, jobsWhaleStep m txs =
      (if s ≠ "" ∧ m ≠ some s then .ok ⟨true, some s, [Event.notify, Event.persistMarker]⟩
       else .ok ⟨false, m, []⟩) := by
    intro m
    simp only [jobsWhaleStep, hsel, hsig]
  have hr2 : jobsWhaleStep (some s) txs = .ok ⟨false, some s, []⟩ := by
    rw [hstep]; simp
  by_cases hm : marker = some s
  · refine ⟨⟨false, marker, []⟩, ?_, by simp [hm], by simp, ⟨false, some s, []⟩, hr2, rfl, rfl⟩
    rw [hstep]; simp [hm]
  · refine ⟨⟨true, some s, [Event.notify, Event.persistMarker]⟩, ?_, by simp [hm], by simp,
      ⟨false, some s, []⟩, hr2, rfl, rfl⟩
    rw [hstep]; simp [hs, hm]

/-- C3 witness: Scenario-1 batch, stored marker SIG_A, selected SIG_B. -/
theorem signature_novelty_iff_witness :
    (jobsHighestTx [exA, exB] = .ok (some exB) ∧ exB.signature = some sigB ∧ sigB ≠ "") ∧
    (∃ r, jobsWhaleStep (some sigA) [exA, exB] = .ok r ∧
      (r.notified = true ↔ some sigA ≠ some sigB) ∧
      r.marker = (if r.notified then some sigB else some sigA) ∧
      ∃ r2, jobsWhaleStep (some sigB) [exA, exB] = .ok r2 ∧
        r2.notified = false ∧ r2.marker = some sigB) :=
  ⟨⟨rfl, rfl, by decide⟩,
    signature_novelty_iff (some sigA) [exA, exB] exB sigB rfl rfl (by decide)⟩

/-- C4: At a notifiable input (no stored marker, one transaction worth
120000 with a fresh signature), the jobs.py step produces the side effects
in the order notify-then-persist: the notification send is awaited first and
the marker write and dashboard save happen only afterwards, the reverse of
the persist-before-notify order the claim requires. -/
theorem notify_precedes_persist :
    jobsWhaleStep none [exB] =
      .ok ⟨true, some sigB, [Event.notify, Event.persistMarker]⟩ ∧
    [Event.notify, Event.persistMarker].indexOf Event.notify <
      [Event.notify, Event.persistMarker].indexOf Event.persistMarker := by
  constructor
  · rfl
  · decide

/-- The scan of check_recent_transactions never decreases the running
latest block time. -/
theorem checkRecentLatest_ge (txs : List Tx) :
    ∀ last : Int, last ≤ checkRecentLatest last txs := by
  induction txs with
  | nil => intro last; exact le_refl _
  | cons t ts ih =>
    intro last
    have h1 : last ≤ (if t.blockTime > last then t.blockTime else last) := by
      split <;> omega
    calc last ≤ (if t.blockTime > last then t.blockTime else last) := h1
      _ ≤ checkRecentLatest (if t.blockTime > last then t.blockTime else last) ts := ih _
      _ = checkRecentLatest last (t :: ts) := rfl

/-- If no record in the batch is newer than the stored marker, the scan
returns the stored marker itself. -/
theorem checkRecentLatest_stale (txs : List Tx) :
    ∀ last : Int, (∀ tx ∈ txs, tx.blockTime ≤ last) →
      checkRecentLatest last txs = last := by
  induction txs with
  | nil => intro last _; rfl
  | cons t ts ih =>
    intro last h
    have ht : t.blockTime ≤ last := h t (by simp)
    have hstep : (if t.blockTime > last then t.blockTime else last) = last := by
      split <;> omega
    show checkRecentLatest (if t.blockTime > last then t.blockTime else last) ts = last
    rw [hstep]
    exact ih last (fun tx htx => h tx (by simp [htx]))

/-- C5: The per-wallet last-seen timestamp marker is monotonically
non-decreasing: every update keeps or strictly increases the stored value,
and an update derived from a batch whose newest blockTime is at most the
stored marker leaves it unchanged. -/
theorem marker_monotone (last : Int) (txs : List Tx) :
    last ≤ checkRecentStored last txs ∧
    ((∀ tx ∈ txs, tx.blockTime ≤ last) → checkRecentStored last txs = last) := by
  constructor
  · unfold checkRecentStored
    have := checkRecentLatest_ge txs last
    split <;> omega
  · intro h
    unfold checkRecentStored
    rw [checkRecentLatest_stale txs last h]
    simp

/-- C5 witness: a stale batch (blockTimes 40 and 90 against marker 100)
leaves the marker at 100, and the update is non-decreasing. -/
theorem marker_monotone_witness :
    (∀ tx ∈ [(⟨none, UsdVal.missing, 40⟩ : Tx), ⟨none, UsdVal.missing, 90⟩],
       tx.blockTime ≤ 100) ∧
    ((100 : Int) ≤ checkRecentStored 100 [⟨none, UsdVal.missing, 40⟩, ⟨none, UsdVal.missing, 90⟩] ∧
     checkRecentStored 100 [⟨none, UsdVal.missing, 40⟩, ⟨none, UsdVal.missing, 90⟩] = 100) :=
  ⟨by decide,
    ⟨(marker_monotone 100 [⟨none, UsdVal.missing, 40⟩, ⟨none, UsdVal.missing, 90⟩]).1,
     (marker_monotone 100 [⟨none, UsdVal.missing, 40⟩, ⟨none, UsdVal.missing, 90⟩]).2 (by decide)⟩⟩

/-- C6: Every (user, subject) pair of a tick is processed exactly once no
matter which per-pair bodies fail, each failure is recorded (caught and
logged) rather than propagated, and the tick as seen by the scheduler loop
never raises, so a single subject's failure cannot terminate the loop. -/
theorem per_pair_errors_contained {α ε : Type} (body : α → Except ε Unit) (pairs : List α) :
    (processPairsCaught body pairs).map Prod.fst = pairs ∧
    schedulerTick body pairs = .ok (processPairsCaught body pairs) := by
  constructor
  · induction pairs with
    | nil => rfl
    | cons p ps ih => simp [processPairsCaught, ih]
  · rfl

/-- C7: If the pre-send re-validation sees the subscription removed or
disabled, the per-subject step sends nothing, regardless of what was fetched
and selected. -/
theorem revalidation_short_circuits (s0 s1 : TokenSettings) (txs : List Tx)
    (present2 : Bool) (s2 : TokenSettings)
    (h : present2 = false ∨ s2.enabled = false) :
    whaleSubjectStep s0 s1 txs present2 s2 = false := by
  unfold whaleSubjectStep
  split
  · rfl
  · split
    · rfl
    · split
      · rfl
      · rcases h with h | h <;> simp [h]

/-- C7 witness: an enabled subscription whose token is removed before the
send (present2 = false) at the Scenario-1 batch sends nothing. -/
theorem revalidation_short_circuits_witness :
    ((false = false ∨ (⟨true, (50000 : ℚ)⟩ : TokenSettings).enabled = false) ∧
     whaleSubjectStep ⟨true, 50000⟩ ⟨true, 50000⟩ [exA, exB] false ⟨true, 50000⟩ = false) :=
  ⟨Or.inl rfl,
    revalidation_short_circuits ⟨true, 50000⟩ ⟨true, 50000⟩ [exA, exB] false ⟨true, 50000⟩
      (Or.inl rfl)⟩

/-- A key is absent from an association list iff lookup returns nothing. -/
theorem alookup_eq_none_iff {β : Type} (k : String) (l : List (String × β)) :
    alookup k l = none ↔ k ∉ l.map Prod.fst := by
  induction l with
  | nil => simp [alookup]
  | cons p rest ih =>
    obtain ⟨k', v⟩ := p
    by_cases hk : k' = k
    · subst hk
      simp [alookup]
    · simp [alookup, hk, ih, Ne.symm hk]

/-- A successful lookup exhibits a member of the list. -/
theorem alookup_mem {β : Type} (k : String) (v : β) (l : List (String × β))
    (h : alookup k l = some v) : (k, v) ∈ l := by
  induction l with
  | nil => cases h
  | cons p rest ih =>
    obtain ⟨k', w⟩ := p
    by_cases hk : k' = k
    · subst hk
      simp only [alookup, if_pos rfl] at h
      obtain rfl := Option.some_inj.mp h
      exact List.mem_cons_self _ _
    · simp only [alookup, if_neg hk] at h
      exact List.mem_cons_of_mem _ (ih h)

/-- Appending a fresh binding is found by a lookup of its key. -/
theorem alookup_append_self {β : Type} (k : String) (v : β) (l : List (String × β))
    (h : alookup k l = none) : alookup k (l ++ [(k, v)]) = some v := by
  induction l with
  | nil => simp [alookup]
  | cons p rest ih =>
    obtain ⟨k', w⟩ := p
    by_cases hk : k' = k
    · subst hk; simp [alookup] at h
    · simp only [alookup, if_neg hk] at h ⊢
      exact ih h

/-- Appending a binding does not change lookups of other keys. -/
theorem alookup_append_other {β : Type} (k k' : String) (v : β) (l : List (String × β))
    (h : k' ≠ k) : alookup k' (l ++ [(k, v)]) = alookup k' l := by
  induction l with
  | nil => simp [alookup, Ne.symm h]
  | cons p rest ih =>
    obtain ⟨q, w⟩ := p
    by_cases hq : q = k'
    · simp [alookup, hq]
    · simp only [List.cons_append, alookup, if_neg hq]
      exact ih

/-- Updating the value stored under a key rewrites exactly that lookup. -/
theorem alookup_mapUpdate_self {β : Type} (k : String) (g : β → β) (l : List (String × β)) :
    alookup k (l.map (fun p => if p.1 = k then (p.1, g p.2) else p)) = (alookup k l).map g := by
  induction l with
  | nil => rfl
  | cons p rest ih =>
    obtain ⟨k', v⟩ := p
    simp only [List.map_cons]
    by_cases hk : k' = k
    · rw [show (if ((k', v) : String × β).1 = k then (((k', v) : String × β).1, g v)
          else ((k', v) : String × β)) = (k', g v) from by simp [hk]]
      simp [alookup, hk, ih]
    · rw [show (if ((k', v) : String × β).1 = k then (((k', v) : String × β).1, g v)
          else ((k', v) : String × β)) = (k', v) from by simp [hk]]
      simp [alookup, hk, ih]

/-- Updating the value stored under a key leaves other lookups unchanged. -/
theorem alookup_mapUpdate_other {β : Type} (k k' : String) (g : β → β)
    (l : List (String × β)) (h : k' ≠ k) :
    alookup k' (l.map (fun p => if p.1 = k then (p.1, g p.2) else p)) = alookup k' l := by
  induction l with
  | nil => rfl
  | cons p rest ih =>
    obtain ⟨q, v⟩ := p
    simp only [List.map_cons]
    by_cases hqk : q = k
    · rw [show (if ((q, v) : String × β).1 = k then (((q, v) : String × β).1, g v)
          else ((q, v) : String × β)) = (q, g v) from by simp [hqk]]
      have hq : ¬ q = k' := fun he => h (he ▸ hqk)
      simp [alookup, hq, ih]
    · rw [show (if ((q, v) : String × β).1 = k then (((q, v) : String × β).1, g v)
          else ((q, v) : String × β)) = (q, v) from by simp [hqk]]
      simp only [alookup, ih]

/-- The per-key update map keeps the key sequence unchanged. -/
theorem keys_mapUpdate {β : Type} (k : String) (g : β → β) (l : List (String × β)) :
    (l.map (fun p => if p.1 = k then (p.1, g p.2) else p)).map Prod.fst = l.map Prod.fst := by
  induction l with
  | nil => rfl
  | cons p rest ih =>
    obtain ⟨k', v⟩ := p
    by_cases hk : k' = k <;> simp [hk, ih]

/-- Appending a fresh element to a duplicate-free list keeps it
duplicate-free. -/
theorem nodup_snoc {γ : Type} [DecidableEq γ] (l : List γ) (a : γ)
    (h : l.Nodup) (ha : a ∉ l) : (l ++ [a]).Nodup := by
  induction l with
  | nil => simp
  | cons b rest ih =>
    rw [List.nodup_cons] at h
    have hab : a ≠ b := fun he => ha (by simp [he])
    have ha' : a ∉ rest := fun he => ha (by simp [he])
    simp only [List.cons_append, List.nodup_cons]
    refine ⟨?_, ih h.2 ha'⟩
    intro hmem
    rcases List.mem_append.mp hmem with hb | hb
    · exact h.1 hb
    · exact hab (List.mem_singleton.mp hb).symm

/-- Under duplicate-free keys the looked-up value is the only binding of its
key. -/
theorem alookup_unique {β : Type} (l : List (String × β)) (k : String) (v : β)
    (hn : (l.map Prod.fst).Nodup) (h : alookup k l = some v) :
    ∀ p ∈ l, p.1 = k → p.2 = v := by
  induction l with
  | nil => intro p hp; cases hp
  | cons q rest ih =>
    obtain ⟨k', w⟩ := q
    simp only [List.map_cons, List.nodup_cons] at hn
    intro p hp hpk
    by_cases hk : k' = k
    · subst hk
      simp only [alookup, if_pos rfl] at h
      obtain rfl := Option.some_inj.mp h
      rcases List.mem_cons.mp hp with rfl | hp
      · rfl
      · exact absurd (hpk ▸ List.mem_map_of_mem Prod.fst hp) hn.1
    · simp only [alookup, if_neg hk] at h
      rcases List.mem_cons.mp hp with rfl | hp
      · exact absurd hpk hk
      · exact ih hn.2 h p hp hpk

/-- setdefault is the identity when the user record already exists. -/
theorem dashSetdefault_of_some (d : Dashboard) (uid : String) (u : UserRec)
    (h : alookup uid d = some u) : dashSetdefault d uid = d := by
  unfold dashSetdefault
  rw [h]

/-- After setdefault the user record exists. -/
theorem alookup_dashSetdefault (d : Dashboard) (uid : String) :
    ∃ u, alookup uid (dashSetdefault d uid) = some u := by
  cases h : alookup uid d with
  | some u =>
    refine ⟨u, ?_⟩
    rw [dashSetdefault_of_some d uid u h]
    exact h
  | none =>
    refine ⟨emptyUser, ?_⟩
    unfold dashSetdefault
    rw [h]
    exact alookup_append_self uid emptyUser d h

/-- The empty user record is well-formed. -/
theorem userInv_emptyUser : userInv emptyUser :=
  ⟨List.nodup_nil, List.nodup_nil⟩

/-- The empty store is well-formed. -/
theorem dashInv_empty : dashInv dashEmpty :=
  ⟨List.nodup_nil, fun p hp => absurd hp (List.not_mem_nil p)⟩

/-- setdefault preserves store well-formedness. -/
theorem dashInv_setdefault (d : Dashboard) (uid : String) (h : dashInv d) :
    dashInv (dashSetdefault d uid) := by
  unfold dashSetdefault
  cases halu : alookup uid d with
  | some u => exact h
  | none =>
    constructor
    · rw [List.map_append]
      exact nodup_snoc _ _ h.1 ((alookup_eq_none_iff uid d).mp halu)
    · intro p hp
      rcases List.mem_append.mp hp with hp | hp
      · exact h.2 p hp
      · obtain rfl := List.mem_singleton.mp hp
        exact userInv_emptyUser

/-- Updating the looked-up user with a record-wise well-formedness-preserving
function keeps the store well-formed. -/
theorem dashInv_updateUser (d : Dashboard) (uid : String) (u : UserRec)
    (f : UserRec → UserRec) (h : dashInv d) (hu : alookup uid d = some u)
    (hf : userInv (f u)) : dashInv (dashUpdateUser d uid f) := by
  constructor
  · unfold dashUpdateUser
    rw [keys_mapUpdate]
    exact h.1
  · intro p hp
    obtain ⟨q, hq, rfl⟩ := List.mem_map.mp hp
    by_cases hqk : q.1 = uid
    · have : q.2 = u := alookup_unique d uid u h.1 hu q hq hqk
      simp [hqk, this, hf]
    · simp only [if_neg hqk]
      exact h.2 q hq

/-- Mapping an entry-wise function that preserves keys leaves the key
sequence unchanged. -/
theorem keys_map_of_fst_eq {β : Type} (f : (String × β) → (String × β))
    (l : List (String × β)) (hf : ∀ p, (f p).1 = p.1) :
    (l.map f).map Prod.fst = l.map Prod.fst := by
  induction l with
  | nil => rfl
  | cons p rest ih => simp [hf p, ih]

/-- Each store mutation preserves well-formedness of the dashboard. -/
theorem dashInv_applyOp (d : Dashboard) (op : Op) (h : dashInv d) :
    dashInv (applyOp d op) := by
  cases op with
  | addWallet uid w =>
    show dashInv (add_tracked_wallet d uid w).1
    unfold add_tracked_wallet
    split
    · exact h
    · rename_i u halu
      have hui : userInv u :=
        (dashInv_setdefault d uid h).2 (uid, u) (alookup_mem uid u _ halu)
      split
      · exact h
      · rename_i hw
        exact dashInv_updateUser (dashSetdefault d uid) uid u
          (fun v => { v with wallets := v.wallets ++ [w] })
          (dashInv_setdefault d uid h) halu ⟨nodup_snoc _ _ hui.1 hw, hui.2⟩
  | removeWallet uid w =>
    show dashInv (remove_tracked_wallet d uid w).1
    unfold remove_tracked_wallet
    split
    · exact h
    · rename_i u halu
      have hui : userInv u :=
        (dashInv_setdefault d uid h).2 (uid, u) (alookup_mem uid u _ halu)
      split
      · exact dashInv_updateUser (dashSetdefault d uid) uid u
          (fun v => { v with wallets := v.wallets.erase w })
          (dashInv_setdefault d uid h) halu
          ⟨hui.1.sublist (List.erase_sublist w u.wallets), hui.2⟩
      · exact h
  | addToken uid tok e th =>
    show dashInv (add_tracked_whale_alert_token d uid tok e th).1
    unfold add_tracked_whale_alert_token
    split
    · exact h
    · rename_i u halu
      have hui : userInv u :=
        (dashInv_setdefault d uid h).2 (uid, u) (alookup_mem uid u _ halu)
      split
      · exact h
      · rename_i halt
        refine dashInv_updateUser (dashSetdefault d uid) uid u
          (fun v => { v with tokens := v.tokens ++ [(tok, ⟨e, th⟩)] })
          (dashInv_setdefault d uid h) halu ⟨hui.1, ?_⟩
        show ((u.tokens ++ [(tok, (⟨e, th⟩ : TokenSettings))]).map Prod.fst).Nodup
        rw [List.map_append]
        exact nodup_snoc _ _ hui.2 ((alookup_eq_none_iff tok u.tokens).mp halt)
  | removeToken uid tok =>
    show dashInv (remove_tracked_whale_alert_token d uid tok).1
    unfold remove_tracked_whale_alert_token
    split
    · exact h
    · rename_i u halu
      have hui : userInv u :=
        (dashInv_setdefault d uid h).2 (uid, u) (alookup_mem uid u _ halu)
      split
      · exact h
      · refine dashInv_updateUser (dashSetdefault d uid) uid u
          (fun v => { v with tokens := v.tokens.filter (fun p => p.1 ≠ tok) })
          (dashInv_setdefault d uid h) halu ⟨hui.1, ?_⟩
        exact hui.2.sublist ((List.filter_sublist u.tokens).map Prod.fst)
  | setEnabled uid tok e =>
    show dashInv (set_token_alert_enabled d uid tok e)
    unfold set_token_alert_enabled
    obtain ⟨u, halu⟩ := alookup_dashSetdefault d uid
    have hui : userInv u :=
      (dashInv_setdefault d uid h).2 (uid, u) (alookup_mem uid u _ halu)
    refine dashInv_updateUser (dashSetdefault d uid) uid u
      (fun v => match alookup tok v.tokens with
        | none => { v with tokens := v.tokens ++ [(tok, ⟨e, 50000⟩)] }
        | some _ =>
          { v with tokens := v.tokens.map (fun p => if p.1 = tok then (p.1, { p.2 with enabled := e }) else p) })
      (dashInv_setdefault d uid h) halu ?_
    show userInv (match alookup tok u.tokens with
      | none => { u with tokens := u.tokens ++ [(tok, ⟨e, 50000⟩)] }
      | some _ =>
        { u with tokens := u.tokens.map (fun p => if p.1 = tok then (p.1, { p.2 with enabled := e }) else p) })
    cases halt : alookup tok u.tokens with
    | none =>
      refine ⟨hui.1, ?_⟩
      show ((u.tokens ++ [(tok, (⟨e, 50000⟩ : TokenSettings))]).map Prod.fst).Nodup
      rw [List.map_append]
      exact nodup_snoc _ _ hui.2 ((alookup_eq_none_iff tok u.tokens).mp halt)
    | some s =>
      refine ⟨hui.1, ?_⟩
      show ((u.tokens.map (fun p => if p.1 = tok then (p.1, { p.2 with enabled := e }) else p)).map
        Prod.fst).Nodup
      rw [keys_map_of_fst_eq]
      · exact hui.2
      · intro p
        by_cases hp : p.1 = tok <;> simp [hp]
  | setThreshold uid tok v =>
    show dashInv (set_token_alert_threshold d uid tok v)
    unfold set_token_alert_threshold
    obtain ⟨u, halu⟩ := alookup_dashSetdefault d uid
    have hui : userInv u :=
      (dashInv_setdefault d uid h).2 (uid, u) (alookup_mem uid u _ halu)
    refine dashInv_updateUser (dashSetdefault d uid) uid u
      (fun w => match alookup tok w.tokens with
        | none => { w with tokens := w.tokens ++ [(tok, ⟨true, v⟩)] }
        | some _ =>
          { w with tokens := w.tokens.map (fun p => if p.1 = tok then (p.1, { p.2 with threshold := v }) else p) })
      (dashInv_setdefault d uid h) halu ?_
    show userInv (match alookup tok u.tokens with
      | none => { u with tokens := u.tokens ++ [(tok, ⟨true, v⟩)] }
      | some _ =>
        { u with tokens := u.tokens.map (fun p => if p.1 = tok then (p.1, { p.2 with threshold := v }) else p) })
    cases halt : alookup tok u.tokens with
    | none =>
      refine ⟨hui.1, ?_⟩
      show ((u.tokens ++ [(tok, (⟨true, v⟩ : TokenSettings))]).map Prod.fst).Nodup
      rw [List.map_append]
      exact nodup_snoc _ _ hui.2 ((alookup_eq_none_iff tok u.tokens).mp halt)
    | some s =>
      refine ⟨hui.1, ?_⟩
      show ((u.tokens.map (fun p => if p.1 = tok then (p.1, { p.2 with threshold := v }) else p)).map
        Prod.fst).Nodup
      rw [keys_map_of_fst_eq]
      · exact hui.2
      · intro p
        by_cases hp : p.1 = tok <;> simp [hp]

/-- Sequences of store mutations preserve well-formedness. -/
theorem dashInv_applyOps (ops : List Op) (d : Dashboard) (h : dashInv d) :
    dashInv (applyOps ops d) := by
  induction ops generalizing d with
  | nil => exact h
  | cons op ops ih => exact ih (applyOp d op) (dashInv_applyOp d op h)

/-- Example user id. -/
def uidEx : String := "7042"

/-- Example tracked token address. -/
def tokEx : String := "TOKA"

/-- Example token address not tracked by the example user. -/
def tokEx2 : String := "TOKB"

/-- Example tracked wallet address. -/
def wEx : String := "WALLET1"

/-- Example user record with one tracked wallet and one tracked token. -/
def userEx : UserRec := ⟨[wEx], [(tokEx, ⟨true, 1000⟩)]⟩

/-- Example dashboard with a single user. -/
def dashEx : Dashboard := [(uidEx, userEx)]

/-- C8: Starting from the empty store, any sequence of add, remove, toggle
and threshold-set operations leaves at most one subscription entry per
(user, subject) pair; moreover adding an already-present whale-alert token
or an already-tracked wallet reports failure and leaves the persisted store
unchanged. -/
theorem at_most_one_subscription (ops : List Op) (d : Dashboard)
    (uid tok w : String) (e : Bool) (th : ℚ) (u : UserRec)
    (hu : alookup uid d = some u) :
    dashInv (applyOps ops dashEmpty) ∧
    ((alookup tok u.tokens).isSome →
       add_tracked_whale_alert_token d uid tok e th = (d, false)) ∧
    (w ∈ u.wallets → add_tracked_wallet d uid w = (d, false)) := by
  refine ⟨dashInv_applyOps ops dashEmpty dashInv_empty, ?_, ?_⟩
  · intro hsome
    obtain ⟨s, hs⟩ := Option.isSome_iff_exists.mp hsome
    unfold add_tracked_whale_alert_token
    rw [dashSetdefault_of_some d uid u hu, hu]
    simp [hs]
  · intro hw
    unfold add_tracked_wallet
    rw [dashSetdefault_of_some d uid u hu, hu]
    simp [hw]

/-- C8 witness: on the example store, re-adding the present token and the
present wallet both report failure without changing the store, and a sample
operation sequence from the empty store satisfies the invariant. -/
theorem at_most_one_subscription_witness :
    (alookup uidEx dashEx = some userEx) ∧
    (dashInv (applyOps [Op.addToken uidEx tokEx true 50000, Op.setEnabled uidEx tokEx false]
        dashEmpty) ∧
     ((alookup tokEx userEx.tokens).isSome →
        add_tracked_whale_alert_token dashEx uidEx tokEx true 50000 = (dashEx, false)) ∧
     (wEx ∈ userEx.wallets → add_tracked_wallet dashEx uidEx wEx = (dashEx, false))) :=
  ⟨rfl, at_most_one_subscription
    [Op.addToken uidEx tokEx true 50000, Op.setEnabled uidEx tokEx false]
    dashEx uidEx tokEx wEx true 50000 userEx rfl⟩

/-- C9: For a (user, token) pair with no stored subscription the settings
query returns the defaults enabled = false and threshold = 50000, and the
whale-alert job sends nothing for it: the token is outside the iterated
tracked list and even a forced evaluation under the default settings is
short-circuited by the disabled flag. -/
theorem default_settings_no_alert (d : Dashboard) (uid tok : String)
    (h : tok ∉ get_tracked_whale_alert_tokens d uid) :
    get_token_alert_settings d uid tok = ⟨false, 50000⟩ ∧
    ∀ (s1 : TokenSettings) (txs : List Tx) (present2 : Bool) (s2 : TokenSettings),
      whaleSubjectStep (get_token_alert_settings d uid tok) s1 txs present2 s2 = false := by
  have hset : get_token_alert_settings d uid tok = ⟨false, 50000⟩ := by
    unfold get_token_alert_settings
    cases hud : alookup uid d with
    | none => rfl
    | some u =>
      have htok : alookup tok u.tokens = none := by
        apply (alookup_eq_none_iff tok u.tokens).mpr
        unfold get_tracked_whale_alert_tokens at h
        rw [hud] at h
        exact h
      simp [htok]
  refine ⟨hset, ?_⟩
  intro s1 txs present2 s2
  rw [hset]
  rfl

/-- C9 witness: the token TOKB is not tracked by the example user, so its
settings are the defaults and the job step sends nothing for it. -/
theorem default_settings_no_alert_witness :
    (tokEx2 ∉ get_tracked_whale_alert_tokens dashEx uidEx) ∧
    (get_token_alert_settings dashEx uidEx tokEx2 = ⟨false, 50000⟩ ∧
     ∀ (s1 : TokenSettings) (txs : List Tx) (present2 : Bool) (s2 : TokenSettings),
       whaleSubjectStep (get_token_alert_settings dashEx uidEx tokEx2) s1 txs present2 s2
         = false) :=
  ⟨by decide, default_settings_no_alert dashEx uidEx tokEx2 (by decide)⟩

/-- Lookup of the updated user after an in-place user update. -/
theorem alookup_dashUpdateUser_self (d : Dashboard) (uid : String) (f : UserRec → UserRec) :
    alookup uid (dashUpdateUser d uid f) = (alookup uid d).map f :=
  alookup_mapUpdate_self uid f d

/-- Lookup of any other user is unchanged by an in-place user update. -/
theorem alookup_dashUpdateUser_other (d : Dashboard) (uid uid' : String)
    (f : UserRec → UserRec) (h : uid' ≠ uid) :
    alookup uid' (dashUpdateUser d uid f) = alookup uid' d :=
  alookup_mapUpdate_other uid uid' f d h

/-- C10: On an existing subscription entry, set_token_alert_enabled
overwrites exactly the enabled field and set_token_alert_threshold exactly
the threshold field; the same entry's other field, the settings of every
other token of the same user, every other user's whole record, and the
user's wallet list are all unchanged. -/
theorem set_alert_frame (d : Dashboard) (uid tok : String) (u : UserRec)
    (s : TokenSettings) (e : Bool) (v : ℚ)
    (hu : alookup uid d = some u) (hs : alookup tok u.tokens = some s) :
    (get_token_alert_settings (set_token_alert_enabled d uid tok e) uid tok
       = ⟨e, s.threshold⟩ ∧
     (∀ tok', tok' ≠ tok →
        get_token_alert_settings (set_token_alert_enabled d uid tok e) uid tok'
          = get_token_alert_settings d uid tok') ∧
     (∀ uid', uid' ≠ uid →
        alookup uid' (set_token_alert_enabled d uid tok e) = alookup uid' d) ∧
     (alookup uid (set_token_alert_enabled d uid tok e)).map UserRec.wallets
       = some u.wallets) ∧
    (get_token_alert_settings (set_token_alert_threshold d uid tok v) uid tok
       = ⟨s.enabled, v⟩ ∧
     (∀ tok', tok' ≠ tok →
        get_token_alert_settings (set_token_alert_threshold d uid tok v) uid tok'
          = get_token_alert_settings d uid tok') ∧
     (∀ uid', uid' ≠ uid →
        alookup uid' (set_token_alert_threshold d uid tok v) = alookup uid' d) ∧
     (alookup uid (set_token_alert_threshold d uid tok v)).map UserRec.wallets
       = some u.wallets) := by
  obtain ⟨se, st⟩ := s
  have hstep1 : alookup uid (set_token_alert_enabled d uid tok e) =
      some { u with tokens := u.tokens.map (fun p => if p.1 = tok then (p.1, { p.2 with enabled := e }) else p) } := by
    unfold set_token_alert_enabled
    rw [dashSetdefault_of_some d uid u hu, alookup_dashUpdateUser_self, hu]
    simp [hs]
  have hstep2 : alookup uid (set_token_alert_threshold d uid tok v) =
      some { u with tokens := u.tokens.map (fun p => if p.1 = tok then (p.1, { p.2 with threshold := v }) else p) } := by
    unfold set_token_alert_threshold
    rw [dashSetdefault_of_some d uid u hu, alookup_dashUpdateUser_self, hu]
    simp [hs]
  refine ⟨⟨?_, ?_, ?_, ?_⟩, ?_, ?_, ?_, ?_⟩
  · unfold get_token_alert_settings
    rw [hstep1]
    have hmap := alookup_mapUpdate_self tok
      (fun x => ({ x with enabled := e } : TokenSettings)) u.tokens
    simp only [hmap, hs]
    rfl
  · intro tok' htok'
    unfold get_token_alert_settings
    rw [hstep1, hu]
    have hmap := alookup_mapUpdate_other tok tok'
      (fun x => ({ x with enabled := e } : TokenSettings)) u.tokens htok'
    simp only [hmap]
  · intro uid' huid'
    unfold set_token_alert_enabled
    rw [dashSetdefault_of_some d uid u hu]
    exact alookup_dashUpdateUser_other d uid uid' _ huid'
  · rw [hstep1]
    rfl
  · unfold get_token_alert_settings
    rw [hstep2]
    have hmap := alookup_mapUpdate_self tok
      (fun x => ({ x with threshold := v } : TokenSettings)) u.tokens
    simp only [hmap, hs]
    rfl
  · intro tok' htok'
    unfold get_token_alert_settings
    rw [hstep2, hu]
    have hmap := alookup_mapUpdate_other tok tok'
      (fun x => ({ x with threshold := v } : TokenSettings)) u.tokens htok'
    simp only [hmap]
  · intro uid' huid'
    unfold set_token_alert_threshold
    rw [dashSetdefault_of_some d uid u hu]
    exact alookup_dashUpdateUser_other d uid uid' _ huid'
  · rw [hstep2]
    rfl

/-- C10 witness: on the example store, disabling and re-pricing the tracked
token TOKA changes exactly the targeted field and nothing else. -/
theorem set_alert_frame_witness :
    (alookup uidEx dashEx = some userEx ∧
     alookup tokEx userEx.tokens = some ⟨true, 1000⟩) ∧
    ((get_token_alert_settings (set_token_alert_enabled dashEx uidEx tokEx false) uidEx tokEx
        = ⟨false, 1000⟩ ∧
      (∀ tok', tok' ≠ tokEx →
         get_token_alert_settings (set_token_alert_enabled dashEx uidEx tokEx false) uidEx tok'
           = get_token_alert_settings dashEx uidEx tok') ∧
      (∀ uid', uid' ≠ uidEx →
         alookup uid' (set_token_alert_enabled dashEx uidEx tokEx false) = alookup uid' dashEx) ∧
      (alookup uidEx (set_token_alert_enabled dashEx uidEx tokEx false)).map UserRec.wallets
        = some userEx.wallets) ∧
     (get_token_alert_settings (set_token_alert_threshold dashEx uidEx tokEx 777) uidEx tokEx
        = ⟨true, 777⟩ ∧
      (∀ tok', tok' ≠ tokEx →
         get_token_alert_settings (set_token_alert_threshold dashEx uidEx tokEx 777) uidEx tok'
           = get_token_alert_settings dashEx uidEx tok') ∧
      (∀ uid', uid' ≠ uidEx →
         alookup uid' (set_token_alert_threshold dashEx uidEx tokEx 777) = alookup uid' dashEx) ∧
      (alookup uidEx (set_token_alert_threshold dashEx uidEx tokEx 777)).map UserRec.wallets
        = some userEx.wallets)) :=
  ⟨⟨rfl, rfl⟩, set_alert_frame dashEx uidEx tokEx userEx ⟨true, 1000⟩ false 777 rfl rfl⟩
